import Mathlib

/-!
Verification development for the caption extension (`pymdownx/blocks/caption.py`).

The Python module is shallowly embedded here:
* `Element` models `xml.etree.ElementTree.Element` (tag, attribute mapping,
  ordered children, `text`/`tail` slots).  Attribute mappings are association
  lists with Python-dict semantics (unique keys in every tree we build; the
  delete helper removes every binding of the key, the set helper overwrites
  in place or appends, exactly as a dict would behave on duplicate-free data).
* `on_validate` / `RE_FIG_NUM` are embedded as executable functions on
  character lists, including the regex's backtracking order, the unescaped
  `.` in the pattern, and Python's `$` matching before a final newline.
* `update_tag`, `CaptionTreeprocessor.run` (as `processEl`/`runList`/`runNum`),
  and `Caption.on_create` are embedded as pure functions; fallible spots of
  the Python code (`parent.attrib['__figure_type']`, `int(...)`) are modelled
  in `Except String`, erroring exactly where the source would raise.
-/

namespace CaptionExt

/-- Element models `xml.etree.ElementTree.Element`: a tag, an attribute
mapping, an ordered child list, and the `text`/`tail` string slots. -/
structure Element where
  tag : String
  attrib : List (String × String)
  children : List Element
  text : Option String
  tail : Option String

/-- Lookup of an attribute key (Python `el.attrib.get(k)` / `k in el.attrib`). -/
def attrGet : List (String × String) → String → Option String
  | [], _ => none
  | (k', v) :: rest, k => if k' = k then some v else attrGet rest k

/-- Attribute write, `el.attrib[k] = v`: overwrite in place or append. -/
def attrSet : List (String × String) → String → String → List (String × String)
  | [], k, v => [(k, v)]
  | (k', v') :: rest, k, v =>
    if k' = k then (k', v) :: rest else (k', v') :: attrSet rest k v

/-- Attribute delete, `del el.attrib[k]`: drops every binding of `k`
(identical to the dict delete on the duplicate-free mappings the binder
produces). -/
def attrDel (a : List (String × String)) (k : String) : List (String × String) :=
  a.filter (fun p => p.1 ≠ k)

/-- Boolean `k in el.attrib`. -/
def hasAttrB (e : Element) (k : String) : Bool := (attrGet e.attrib k).isSome

/-- Python `str.isspace` characters relevant to `str.lstrip()`. -/
def pyWs (c : Char) : Bool :=
  c = ' ' ∨ c = '\t' ∨ c = '\n' ∨ c = '\r' ∨ c = '\x0b' ∨ c = '\x0c'

/-- Python `s.lstrip()` on a character list. -/
def lstrip (s : List Char) : List Char := s.dropWhile pyWs

/-- Python `s.split('.')` (always returns at least one piece). -/
def splitDotsL : List Char → List (List Char)
  | [] => [[]]
  | '.' :: rest => [] :: splitDotsL rest
  | c :: rest =>
    match splitDotsL rest with
    | [] => [[c]]
    | p :: ps => (c :: p) :: ps

/-- Python `s.split('.')` on `String`. -/
def splitDots (s : String) : List String := (splitDotsL s.toList).map String.mk

/-- Python `sep.join(pieces)`. -/
def joinSep (sep : String) : List String → String
  | [] => ""
  | [x] => x
  | x :: xs => x ++ sep ++ joinSep sep xs

/-- Python `template.format(arg)` for the configured prefix templates, which
contain at most one insertion point: every `\x7b\x7d` is replaced by `arg`. -/
def pyFormatL : List Char → List Char → List Char
  | [], _ => []
  | '\x7b' :: '\x7d' :: rest, arg => arg ++ pyFormatL rest arg
  | c :: rest, arg => c :: pyFormatL rest arg

/-- Python `template.format(arg)` on `String`. -/
def pyFormat (tmpl arg : String) : String :=
  String.mk (pyFormatL tmpl.toList arg.toList)

/-- Digit accumulator for `pyInt`. -/
def digitsVal : List Char → Nat → Option Nat
  | [], acc => some acc
  | c :: rest, acc =>
    if '0' ≤ c ∧ c ≤ '9' then digitsVal rest (acc * 10 + (c.toNat - '0'.toNat))
    else none

/-- Python `int(s)`: optional surrounding whitespace, optional sign, a
non-empty digit run; anything else raises `ValueError`.  (CPython also
allows single underscores between digits; no attribute value any claim
involves contains one, and the validated tokens never do.) -/
def pyInt (s : String) : Except String Int :=
  let t := (lstrip ((lstrip s.toList).reverse)).reverse
  let (neg, ds) :=
    match t with
    | '-' :: rest => (true, rest)
    | '+' :: rest => (false, rest)
    | _ => (false, t)
  match ds with
  | [] => .error ("ValueError: " ++ s)
  | _ =>
    match digitsVal ds 0 with
    | some n => .ok (if neg then -(n : Int) else (n : Int))
    | none => .error ("ValueError: " ++ s)

/-! ### The argument regex `RE_FIG_NUM`

`RE_FIG_NUM = re.compile(r'^(\^)?([1-9][0-9]*(?:.[1-9][0-9]*)*)(?= |$)')`

Note the `.` inside the non-capturing group is not escaped, so it matches any
character except a newline.  The matcher below reproduces the engine's
leftmost, greedy, backtracking search: it returns the end position the Python
engine reports, trying longer digit runs and more repetitions first. -/

/-- Character class `[1-9]`. -/
def isD1 (c : Char) : Bool := '1' ≤ c ∧ c ≤ '9'

/-- Character class `[0-9]`. -/
def isD0 (c : Char) : Bool := '0' ≤ c ∧ c ≤ '9'

/-- The unescaped `.`: any character except a newline. -/
def reAny (c : Char) : Bool := c ≠ '\n'

/-- The lookahead `(?= |$)`: a space follows, or end of string; Python's `$`
also matches just before a trailing final newline. -/
def lookaheadOk : List Char → Bool
  | [] => true
  | [c] => c = ' ' ∨ c = '\n'
  | c :: _ :: _ => c = ' '

/-- Consumed-length alternatives for `[0-9]*`, longest (greediest) first. -/
def zeroStar : List Char → List Nat
  | [] => [0]
  | c :: rest => if isD0 c then (zeroStar rest).map (· + 1) ++ [0] else [0]

/-- Consumed-length alternatives for `[1-9][0-9]*`, greediest first. -/
def matchD : List Char → List Nat
  | [] => []
  | c :: rest => if isD1 c then (zeroStar rest).map (· + 1) else []

/-- First successful alternative, in engine priority order. -/
def firstSome : List (Option Nat) → Option Nat
  | [] => none
  | some n :: _ => some n
  | none :: rest => firstSome rest

/-- Backtracking match of `(?:.[1-9][0-9]*)*(?= |$)` against `s`, returning
the number of characters the starred group consumes on the first (greediest)
overall success.  Each iteration consumes at least two characters, so
`s.length` is enough fuel. -/
def starTail : Nat → List Char → Option Nat
  | 0, s => if lookaheadOk s then some 0 else none
  | fuel + 1, s =>
    let deeper : Option Nat :=
      match s with
      | [] => none
      | c :: rest =>
        if reAny c then
          firstSome ((matchD rest).map fun n =>
            (starTail fuel (rest.drop n)).map fun m => 1 + n + m)
        else none
    match deeper with
    | some k => some k
    | none => if lookaheadOk s then some 0 else none

/-- `RE_FIG_NUM.match(s)`: on success, whether group 1 (the caret) matched,
group 2 as a string, and `m.end()`. -/
def reFigNumMatch (s : List Char) : Option (Bool × List Char × Nat) :=
  match s with
  | '^' :: rest =>
    (firstSome ((matchD rest).map fun n =>
        (starTail rest.length (rest.drop n)).map fun m => n + m)).map
      fun e => (true, rest.take e, e + 1)
  | _ =>
    (firstSome ((matchD s).map fun n =>
        (starTail s.length (s.drop n)).map fun m => n + m)).map
      fun e => (false, s.take e, e)

/-! ### `Caption.on_validate` -/

/-- Outcome of `Caption.on_validate`: the returned boolean plus the block
state it leaves behind (`self.prepend`, `self.fig_num`, `self.level`). -/
structure VRes where
  accepted : Bool
  prepend : Bool
  fig_num : String
  level : String

/-- Core of `on_validate`: direction marker, then the numeric token, then the
leftover argument text (the final `if argument:` test).  Returns
(prepend, fig_num, level, residual argument). -/
def vParse (cfgPrepend : Bool) (arg0 : List Char) : Bool × String × String × List Char :=
  if arg0.isEmpty then (cfgPrepend, "", "", [])
  else
    let m1 :=
      match arg0 with
      | [] => (cfgPrepend, arg0)
      | c :: rest =>
        if c = '>' then (false, lstrip rest)
        else if c = '<' then (true, lstrip rest)
        else (cfgPrepend, arg0)
    match reFigNumMatch m1.2 with
    | some (caret, g2, endPos) =>
      let arg2 := lstrip (m1.2.drop endPos)
      if caret then (m1.1, "", String.mk g2, arg2)
      else (m1.1, String.mk g2, "", arg2)
    | none => (m1.1, "", "", m1.2)

/-- The residual argument text left when `on_validate` reaches its final
`if argument: return False` test. -/
def vResidual (cfgPrepend : Bool) (arg0 : List Char) : List Char :=
  (vParse cfgPrepend arg0).2.2.2

/-- `Caption.on_validate` (validation succeeds iff no argument text is left). -/
def on_validate (cfgPrepend : Bool) (argument : String) : VRes :=
  let r := vParse cfgPrepend argument.toList
  ⟨r.2.2.2.isEmpty, r.1, r.2.1, r.2.2.1⟩

/-- `on_validate` with the `parent` parameter of the source signature: the
source never touches `parent`, so the tree is returned unchanged. -/
def on_validate_parent (cfgPrepend : Bool) (argument : String) (parent : Element) :
    VRes × Element :=
  (on_validate cfgPrepend argument, parent)

/-! ### `update_tag` -/

/-- The caption side of `update_tag` applied to one `figcaption` child:
build (or reuse) the leading `p` wrapper and insert the prefix span. -/
def capTransform (value : String) (child : Element) : Element :=
  match child.children with
  | first :: rest =>
    if first.tag = "p" then
      -- existing leading paragraph: push the span in front of its text
      let span : Element :=
        ⟨"span", [("class", "caption-prefix")], [],
         some value,
         match first.text with
         | some t => some (" " ++ t)
         | none => none⟩
      let p' : Element := { first with text := none, children := span :: first.children }
      { child with children := p' :: rest }
    else
      let span : Element := ⟨"span", [("class", "caption-prefix")], [], some value, none⟩
      let p : Element := ⟨"p", [], [span], none, child.text⟩
      { child with text := none, children := p :: child.children }
  | [] =>
    let span : Element := ⟨"span", [("class", "caption-prefix")], [], some value, none⟩
    let p : Element := ⟨"p", [], [span], none, child.text⟩
    { child with text := none, children := [p] }

/-- `update_tag(el, fig_type, fig_num, template, prepend)`: add the id when
missing, and, when a template is configured, inject the formatted prefix into
each `figcaption` child.  The source iterates `list(el)` when prepending and
`reversed(el)` otherwise; since the loop has no early exit, each direction
transforms every `figcaption` child in place. -/
def update_tag (el : Element) (fig_type fig_num template : String) (prepend : Bool) :
    Element :=
  let idVal := "__" ++ fig_type ++ "_" ++ joinSep "_" (splitDots fig_num)
  let el1 :=
    if (attrGet el.attrib "id").isSome then el
    else { el with attrib := attrSet el.attrib "id" idVal }
  if template = "" then el1
  else
    let value := pyFormat template fig_num
    let f := fun c => if c.tag = "figcaption" then capTransform value c else c
    let cs :=
      if prepend then el1.children.map f
      else ((el1.children.reverse).map f).reverse
    { el1 with children := cs }

/-! ### The tree processor (`CaptionTreeprocessor.run`) -/

/-- Treeprocessor configuration: `auto_level` (already clamped to `max 0 _`),
the `types` registry (name, prefix template), and `self.type` (always `""`). -/
structure Cfg where
  auto_level : Nat
  fig_types : List (String × String)
  typ : String

/-- Traversal state: `last` and `counters` per figure type, and `last_type`. -/
structure St where
  last : List (String × Int)
  counters : List (String × List Int)
  last_type : String

/-- Initial state of `run`: `last = {k: 0}`, `counters = {k: [0]}`. -/
def initSt (cfg : Cfg) : St :=
  ⟨cfg.fig_types.map (fun p => (p.1, 0)),
   cfg.fig_types.map (fun p => (p.1, [0])),
   cfg.typ⟩

/-- Python `d[k]` on the per-type dictionaries (raises on a missing key). -/
def dictGet {α : Type} : List (String × α) → String → Except String α
  | [], k => .error ("KeyError: " ++ k)
  | (k', v) :: rest, k => if k' = k then .ok v else dictGet rest k

/-- Python `d[k] = v` on the per-type dictionaries. -/
def dictSet {α : Type} : List (String × α) → String → α → List (String × α)
  | [], k, v => [(k, v)]
  | (k', v') :: rest, k, v =>
    if k' = k then (k', v) :: rest else (k', v') :: dictSet rest k v

/-- `counter[stack] += 1` (the index is in range whenever the source reaches
this line, because `len(counter) == last + 1` is invariant). -/
def incAt : List Int → Nat → List Int
  | [], _ => []
  | x :: xs, 0 => (x + 1) :: xs
  | x :: xs, n + 1 => x :: incAt xs n

/-- `counter[-1] += 1`. -/
def incLast : List Int → List Int
  | [] => []
  | [x] => [x + 1]
  | x :: xs => x :: incLast xs

/-- Lines 169-175: advance the type's counter to the figure's depth
(`stack`), given the depth last visited (`l`). -/
def counterStep (counter : List Int) (l stack : Int) : List Int :=
  if stack > l then counter ++ List.replicate (stack - l).toNat 1
  else if stack = l then incAt counter stack.toNat
  else incLast (counter.take (stack + 1).toNat)

/-- Lines 179-181: adopt a manual number when it is component-wise at least
the freshly computed counter. -/
def manualAdopt (counter figNum : List Int) : List Int :=
  if figNum ≠ [] ∧ ((counter.zip figNum).all fun p => p.1 ≤ p.2) then figNum
  else counter

/-- `[int(x) for x in s.split('.')]` (raises `ValueError` on a bad piece). -/
def mapMInt : List String → Except String (List Int)
  | [] => .ok []
  | s :: rest =>
    match pyInt s with
    | .error e => .error e
    | .ok v =>
      match mapMInt rest with
      | .error e => .error e
      | .ok vs => .ok (v :: vs)

/-- Parse of a `__figure_num` attribute value, as line 118 performs it. -/
def parseFigNumAttr (s : String) : Except String (List Int) :=
  mapMInt (splitDots s)

/-- Arguments the source passes to `update_tag` at line 184. -/
structure TagArgs where
  figType : String
  figNum : String
  template : String
  prepend : Bool

/-- The ancestor climb, lines 133-158.  `anc` is the parent chain (nearest
first).  Returns the final `stack`, the `skip` flag, and the
`__figure_level` value line 150 records on the current element, if any.
Line 142 indexes `parent.attrib['__figure_type']` directly, so an ancestor
`figure` without that attribute raises `KeyError`. -/
def climb (autoLevel : Nat) (figType : String) : List Element → Int →
    Except String (Int × Bool × Option String)
  | [], stack => .ok (stack, false, none)
  | parent :: higher, stack =>
    if parent.tag = "figure" then
      match attrGet parent.attrib "__figure_type" with
      | none => .error "KeyError: __figure_type"
      | some pt =>
        if pt = figType then
          match attrGet parent.attrib "__figure_level" with
          | some lv =>
            match pyInt lv with
            | .error e => .error e
            | .ok pv =>
              let stack' := stack + pv + 1
              let setEl := some (toString (stack' + 1))
              if autoLevel ≠ 0 ∧ stack' ≥ (autoLevel : Int) then
                .ok (stack', true, setEl)
              else
                .ok (stack', false, setEl)
          | none =>
            let stack' := stack + 1
            if autoLevel ≠ 0 ∧ stack' ≥ (autoLevel : Int) then
              .ok (stack', true, none)
            else
              climb autoLevel figType higher stack'
        else climb autoLevel figType higher stack
    else climb autoLevel figType higher stack

/-- Lines 164-190: counter update, manual-number adoption, state write-back,
and the arguments of the `update_tag` call. -/
def finishFig (cfg : Cfg) (st : St) (el : Element) (ft : String) (stack : Int)
    (figNumL : List Int) (pr : Bool) : Except String (Element × St × Option TagArgs) :=
  if stack > -1 then
    match dictGet st.last ft with
    | .error e => .error e
    | .ok l =>
      match dictGet st.counters ft with
      | .error e => .error e
      | .ok counter =>
        let counter2 := manualAdopt (counterStep counter l stack) figNumL
        let st' : St :=
          ⟨dictSet st.last ft stack, dictSet st.counters ft counter2, ft⟩
        let figNumStr :=
          joinSep "." ((counter2.take (stack + 1).toNat).map toString)
        let tmplG := ((cfg.fig_types.find? (fun p => p.1 == ft)).map Prod.snd).getD ""
        .ok (el, st', some ⟨ft, figNumStr, tmplG, pr⟩)
  else .ok (el, st, none)

/-- Depth determination through the ancestor climb (the tail of lines
124-162) followed by `finishFig`. -/
def climbFinish (cfg : Cfg) (st : St) (el : Element) (a1 : List (String × String))
    (ft : String) (anc : List Element) (s0 : Int) (pr : Bool) :
    Except String (Element × St × Option TagArgs) :=
  match climb cfg.auto_level ft anc s0 with
  | .error e => .error e
  | .ok (stack, skip, setLv) =>
    let a2 :=
      match setLv with
      | some v => attrSet a1 "__figure_level" v
      | none => a1
    if skip then .ok ({ el with attrib := a2 }, st, none)
    else finishFig cfg st { el with attrib := a2 } ft stack [] pr

/-- One element of the `for el in doc.iter()` loop (lines 92-190), minus the
recursive descent: attribute handling, depth computation, counter update,
and the pending `update_tag` arguments.  `anc` is the parent chain. -/
def processEl (cfg : Cfg) (anc : List Element) (st : St) (el : Element) :
    Except String (Element × St × Option TagArgs) :=
  if el.tag = "figure" then
    -- lines 101-103: find and consume a prepend marker
    let pr := hasAttrB el "__figure_prepend"
    let a1 := if pr then attrDel el.attrib "__figure_prepend" else el.attrib
    match attrGet a1 "__figure_type" with
    | none => .ok ({ el with attrib := a1 }, st, none)      -- line 112-114
    | some ft =>
      match cfg.fig_types.find? (fun p => p.1 == ft) with
      | none => .ok ({ el with attrib := a1 }, st, none)    -- line 110: unknown type
      | some (_, tmpl) =>
        if tmpl = "" then .ok ({ el with attrib := a1 }, st, none)  -- line 110: no template
        else
          match attrGet a1 "__figure_num" with
          | some ns =>                                       -- lines 116-121
            match parseFigNumAttr ns with
            | .error e => .error e
            | .ok figNumL =>
              let a2 := attrSet (attrDel a1 "__figure_num") "__figure_level"
                          (toString figNumL.length)
              finishFig cfg st { el with attrib := a2 } ft
                ((figNumL.length : Int) - 1) figNumL pr
          | none =>                                          -- lines 123-162
            match attrGet a1 "__figure_level" with
            | some lv =>
              match pyInt lv with
              | .error e => .error e
              | .ok v =>
                let s0 : Int := -1 + v + 1
                if cfg.auto_level ≠ 0 ∧ s0 ≥ (cfg.auto_level : Int) - 1 then
                  .ok ({ el with attrib := a1 }, st, none)   -- lines 128-129
                else climbFinish cfg st el a1 ft anc s0 pr
            | none => climbFinish cfg st el a1 ft anc (-1 + 1) pr
  else .ok (el, st, none)

/-- The `update_tag` call of line 184, when the element reached it. -/
def applyTag (el1 : Element) (targs : Option TagArgs) : Element :=
  match targs with
  | some t => update_tag el1 t.figType t.figNum t.template t.prepend
  | none => el1

/-- The document-order traversal of `run`.  Each element is processed and
`update_tag` applied (source order: before its subtree is scanned), then its
children, then its later siblings.  `fuel` only bounds the recursion and is
chosen large enough in `runNum`. -/
def runList (cfg : Cfg) : Nat → List Element → St → List Element →
    Except String (List Element × St)
  | _, _, st, [] => .ok ([], st)
  | 0, _, _, _ :: _ => .error "fuel"
  | fuel + 1, anc, st, el :: rest =>
    match processEl cfg anc st el with
    | .error e => .error e
    | .ok (el1, st1, targs) =>
      let el2 := applyTag el1 targs
      match runList cfg fuel (el2 :: anc) st1 el2.children with
      | .error e => .error e
      | .ok (cs, st2) =>
        match runList cfg fuel anc st2 rest with
        | .error e => .error e
        | .ok (rs, st3) => .ok ({ el2 with children := cs } :: rs, st3)

/-- Lines 192-196: remove `__figure_type` (and `__figure_level` if present)
from every figure the pass recorded — exactly the `figure`-tagged elements
still carrying `__figure_type`.  Returns `none` when the fuel runs out, so a
successful `runNum` implies the cleanup sweep reached every node. -/
def cleanupList : Nat → List Element → Option (List Element)
  | _, [] => some []
  | 0, _ :: _ => none
  | fuel + 1, e :: es =>
    let a :=
      if e.tag = "figure" ∧ hasAttrB e "__figure_type" then
        let a1 := attrDel e.attrib "__figure_type"
        if (attrGet a1 "__figure_level").isSome then attrDel a1 "__figure_level" else a1
      else e.attrib
    match cleanupList fuel e.children with
    | none => none
    | some cs =>
      match cleanupList fuel es with
      | none => none
      | some es' => some ({ e with attrib := a, children := cs } :: es')

/-- `CaptionTreeprocessor.run` on a whole document.  `fuel` bounds only the
recursion of this embedding (the Python traversal over the finite tree needs
none); every theorem below either quantifies over it or instantiates it
large enough for the concrete document. -/
def runNum (cfg : Cfg) (fuel : Nat) (doc : Element) : Except String Element :=
  match runList cfg fuel [] (initSt cfg) [doc] with
  | .error e => .error e
  | .ok (out, _) =>
    match cleanupList fuel out with
    | some [d] => .ok d
    | _ => .error "fuel"

/-! ### `Caption.on_create` -/

/-- Per-block state the binder consults in `on_create`. -/
structure CreateArgs where
  auto : Bool
  prepend : Bool
  name : String
  level : String
  fig_num : String

/-- Lines 267-281: stamp the deferred-numbering hints on the figure and
insert the `figcaption` first (prepend) or last (append). -/
def stampFig (a : CreateArgs) (fig : Element) : Element :=
  let fig1 :=
    if a.auto then
      let f1 := { fig with attrib := attrSet fig.attrib "__figure_type" a.name }
      let f2 :=
        if a.level ≠ "" then { f1 with attrib := attrSet f1.attrib "__figure_level" a.level }
        else f1
      if a.fig_num ≠ "" then { f2 with attrib := attrSet f2.attrib "__figure_num" a.fig_num }
      else f2
    else fig
  if a.prepend then
    let fig2 :=
      if a.auto then { fig1 with attrib := attrSet fig1.attrib "__figure_prepend" "1" }
      else fig1
    { fig2 with children := Element.mk "figcaption" [] [] none none :: fig2.children }
  else
    { fig1 with children := fig1.children ++ [Element.mk "figcaption" [] [] none none] }

/-- `Caption.on_create` (lines 242-283): reuse the parent's last child when
it is a captionless figure, otherwise create a fresh figure and move the
last child (if any) inside it.  Returns the updated parent. -/
def on_create (a : CreateArgs) (parent : Element) : Element :=
  match parent.children.getLast? with
  | none =>
    { parent with children := [stampFig a ⟨"figure", [], [], none, none⟩] }
  | some child =>
    if child.tag = "figure" ∧ (child.children.all fun c => c.tag != "figcaption") then
      { parent with children := parent.children.dropLast ++ [stampFig a child] }
    else
      { parent with children :=
          parent.children.dropLast ++ [stampFig a ⟨"figure", [], [child], none, none⟩] }

/-! ### Concrete fixtures

Configurations used in the scenarios: `cfgStd` registers a single type
`figure` with template `Figure {}.` and no auto-level ceiling, `cfgL1` the
same with ceiling 1, `cfgE` a registered type whose template is empty. -/

def cfgStd : Cfg := ⟨0, [("figure", "Figure \x7b\x7d.")], ""⟩

def cfgL1 : Cfg := ⟨1, [("figure", "Figure \x7b\x7d.")], ""⟩

def cfgE : Cfg := ⟨0, [("figure", "")], ""⟩

/-- Empty `figcaption`, as `on_create` appends it. -/
def fc0 : Element := ⟨"figcaption", [], [], none, none⟩

/-- A `figcaption` after prefix injection: `p` wrapper holding the
caption-prefix span with the formatted ordinal `v`. -/
def fcPfx (v : String) : Element :=
  ⟨"figcaption", [],
   [⟨"p", [], [⟨"span", [("class", "caption-prefix")], [], some v, none⟩], none, none⟩],
   none, none⟩

/-! ### Concrete documents and their processed forms -/

/-- C1 input: a binder figure of a registered type with an empty template,
carrying a manual number. -/
def docC1 : Element := ⟨"div", [],
  [⟨"figure", [("__figure_type", "figure"), ("__figure_num", "5")], [fc0], none, none⟩],
  none, none⟩

/-- C1 output figure: `__figure_num` survives the pass. -/
def outC1fig : Element := ⟨"figure", [("__figure_num", "5")], [fc0], none, none⟩

/-- C1 output document. -/
def outC1 : Element := ⟨"div", [], [outC1fig], none, none⟩

/-- C2 input: a figure with manual number `5`, then an unmarked sibling. -/
def docC2 : Element := ⟨"div", [],
  [⟨"figure", [("__figure_type", "figure"), ("__figure_num", "5")], [fc0], none, none⟩,
   ⟨"figure", [("__figure_type", "figure")], [fc0], none, none⟩], none, none⟩

/-- C2 output: the manual figure numbered `5`, the sibling `6`. -/
def outC2 : Element := ⟨"div", [],
  [⟨"figure", [("id", "__figure_5")], [fcPfx "Figure 5."], none, none⟩,
   ⟨"figure", [("id", "__figure_6")], [fcPfx "Figure 6."], none, none⟩], none, none⟩

/-- C3 input: a binder figure nested inside a raw `figure` element that
carries no `__figure_type` hint (e.g. figure written in raw HTML). -/
def docC3 : Element := ⟨"div", [],
  [⟨"figure", [],
    [⟨"figure", [("__figure_type", "figure")], [fc0], none, none⟩], none, none⟩],
  none, none⟩

/-- C4 input: a binder figure whose `__figure_num` used a non-dot separator
(the shape `on_validate` accepts through the unescaped `.`). -/
def docC4 : Element := ⟨"div", [],
  [⟨"figure", [("__figure_type", "figure"), ("__figure_num", "1x2")], [fc0], none, none⟩],
  none, none⟩

/-- C4 input: a binder figure whose `__figure_level` is a dotted sequence
(the shape a caret-prefixed dotted token produces). -/
def docC4b : Element := ⟨"div", [],
  [⟨"figure", [("__figure_type", "figure"), ("__figure_level", "1.2")], [fc0], none, none⟩],
  none, none⟩

/-- C5 input: the first figure of its type carries a level override `2`. -/
def docC5 : Element := ⟨"div", [],
  [⟨"figure", [("__figure_type", "figure"), ("__figure_level", "2")], [fc0], none, none⟩],
  none, none⟩

/-- C5 output figure: the emitted ordinal is `0.1.1` — a zero component. -/
def outC5fig : Element :=
  ⟨"figure", [("id", "__figure_0_1_1")], [fcPfx "Figure 0.1.1."], none, none⟩

/-- C5 output document. -/
def outC5 : Element := ⟨"div", [], [outC5fig], none, none⟩

/-- C5 check: every dot-separated component of `s` parses as a positive
integer (the claim's "each component is a positive integer"). -/
def allPosDotted (s : String) : Bool :=
  (splitDots s).all fun p =>
    match pyInt p with
    | .ok v => decide (0 < v)
    | .error _ => false

/-- C7 input: three nested binder figures of the same type. -/
def docC7 : Element := ⟨"div", [],
  [⟨"figure", [("__figure_type", "figure")],
    [⟨"figure", [("__figure_type", "figure")],
      [⟨"figure", [("__figure_type", "figure")], [fc0], none, none⟩, fc0],
      none, none⟩, fc0], none, none⟩],
  none, none⟩

/-- C7 output innermost figure: no id, caption untouched. -/
def outC7grand : Element := ⟨"figure", [], [fc0], none, none⟩

/-- C7 output inner figure: no id, caption untouched. -/
def outC7inner : Element := ⟨"figure", [], [outC7grand, fc0], none, none⟩

/-- C7 output outer figure: numbered `1`. -/
def outC7outer : Element :=
  ⟨"figure", [("id", "__figure_1")], [outC7inner, fcPfx "Figure 1."], none, none⟩

/-- C7 output document. -/
def outC7 : Element := ⟨"div", [], [outC7outer], none, none⟩

/-- C8 input: two top-level binder figures, no nesting, no manual numbers. -/
def docC8 : Element := ⟨"div", [],
  [⟨"figure", [("__figure_type", "figure")], [fc0], none, none⟩,
   ⟨"figure", [("__figure_type", "figure")], [fc0], none, none⟩], none, none⟩

/-- C8 output: ordinals `1` and `2`, ids `__figure_1` and `__figure_2`. -/
def outC8 : Element := ⟨"div", [],
  [⟨"figure", [("id", "__figure_1")], [fcPfx "Figure 1."], none, none⟩,
   ⟨"figure", [("id", "__figure_2")], [fcPfx "Figure 2."], none, none⟩], none, none⟩

/-- C10 input: a figure with two `figcaption` children. -/
def elTwoCaps : Element :=
  ⟨"figure", [],
   [⟨"figcaption", [], [], some "a", none⟩, ⟨"figcaption", [], [], some "b", none⟩],
   none, none⟩

/-- Number of direct `figcaption` children. -/
def countFigcaps (e : Element) : Nat :=
  (e.children.filter fun c => c.tag == "figcaption").length

/-- Whether a caption's leading child is a wrapper holding the caption-prefix
span — the shape `capTransform` leaves behind. -/
def capHasPfxSpan (c : Element) : Bool :=
  match c.children with
  | p :: _ =>
    match p.children with
    | s :: _ => s.tag == "span" && (attrGet s.attrib "class" == some "caption-prefix")
    | [] => false
  | [] => false

/-- Number of direct `figcaption` children that carry an injected prefix. -/
def countPfxCaptions (e : Element) : Nat :=
  (e.children.filter fun c => c.tag == "figcaption" && capHasPfxSpan c).length

/-! ### Tree-wide predicates (for the cleanup claims) -/

/-- AllE P e: the property `P` holds at `e` and at every descendant. -/
inductive AllE (P : Element → Prop) : Element → Prop where
  | node : (e : Element) → P e → (∀ c ∈ e.children, AllE P c) → AllE P e

/-- LvTy: a `__figure_level` hint only appears together with
`__figure_type` — true of every tree the binder produces (the binder stamps
`__figure_level` only alongside `__figure_type`, lines 267-270). -/
def LvTy (n : Element) : Prop :=
  hasAttrB n "__figure_level" = true → hasAttrB n "__figure_type" = true

/-- PrepClear: no figure carries a `__figure_prepend` marker. -/
def PrepClear (n : Element) : Prop :=
  n.tag = "figure" → hasAttrB n "__figure_prepend" = false

/-- TransClear: no figure carries `__figure_type`, `__figure_prepend` or
`__figure_level` (the transient attributes other than `__figure_num`). -/
def TransClear (n : Element) : Prop :=
  n.tag = "figure" →
    hasAttrB n "__figure_type" = false ∧ hasAttrB n "__figure_prepend" = false ∧
    hasAttrB n "__figure_level" = false

/-- Clean: no figure carries `__figure_type` or `__figure_prepend`; on such
a tree the pass touches nothing. -/
def Clean (n : Element) : Prop :=
  n.tag = "figure" →
    hasAttrB n "__figure_type" = false ∧ hasAttrB n "__figure_prepend" = false

/-- CleanT: no figure carries `__figure_type` (what the cleanup sweep keys
on). -/
def CleanT (n : Element) : Prop :=
  n.tag = "figure" → hasAttrB n "__figure_type" = false

/-- ShapeEq es es': the two element lists have the same tree shape (same
lengths level by level); tags, attributes and text may differ.  Fuel-based
recursions traverse shape-equal lists identically. -/
inductive ShapeEq : List Element → List Element → Prop where
  | nil : ShapeEq [] []
  | cons : ∀ (e e' : Element) (es es' : List Element),
      ShapeEq e.children e'.children → ShapeEq es es' →
      ShapeEq (e :: es) (e' :: es')

/-! ### Attribute-mapping lemmas -/

theorem attrGet_set_self (a : List (String × String)) (k v : String) :
    attrGet (attrSet a k v) k = some v := by
  induction a with
  | nil => simp [attrSet, attrGet]
  | cons p rest ih =>
    by_cases h : p.1 = k
    · simp [attrSet, attrGet, h]
    · simp [attrSet, attrGet, h, ih]

theorem attrGet_set_ne (a : List (String × String)) (k v k' : String) (h : k' ≠ k) :
    attrGet (attrSet a k v) k' = attrGet a k' := by
  induction a with
  | nil => simp [attrSet, attrGet, Ne.symm h]
  | cons p rest ih =>
    obtain ⟨pk, pv⟩ := p
    by_cases hp : pk = k
    · subst hp
      have hn : ¬(pk = k') := fun hc => h hc.symm
      simp [attrSet, attrGet, hn]
    · by_cases hp' : pk = k'
      · subst hp'
        simp [attrSet, attrGet, hp]
      · simp [attrSet, attrGet, hp, hp', ih]

theorem attrGet_del_self (a : List (String × String)) (k : String) :
    attrGet (attrDel a k) k = none := by
  induction a with
  | nil => simp [attrDel, attrGet]
  | cons p rest ih =>
    obtain ⟨pk, pv⟩ := p
    by_cases h : pk = k
    · simpa [attrDel, List.filter_cons, h] using ih
    · simpa [attrDel, List.filter_cons, attrGet, h] using ih

theorem attrGet_del_ne (a : List (String × String)) (k k' : String) (h : k' ≠ k) :
    attrGet (attrDel a k) k' = attrGet a k' := by
  induction a with
  | nil => simp [attrDel, attrGet]
  | cons p rest ih =>
    obtain ⟨pk, pv⟩ := p
    by_cases hp : pk = k
    · subst hp
      have hn : ¬(pk = k') := fun hc => h hc.symm
      simpa [attrDel, List.filter_cons, attrGet, hn] using ih
    · by_cases hp' : pk = k'
      · subst hp'
        simp [attrDel, List.filter_cons, attrGet, hp]
      · simpa [attrDel, List.filter_cons, attrGet, hp, hp'] using ih


/-! ### Helper lemmas for the remaining claims -/

theorem incAt_length (l : List Int) (n : Nat) : (incAt l n).length = l.length := by
  induction l generalizing n with
  | nil => simp [incAt]
  | cons x xs ih =>
    cases n with
    | zero => simp [incAt]
    | succ n => simp [incAt, ih]

theorem incLast_length (l : List Int) : (incLast l).length = l.length := by
  induction l with
  | nil => simp [incLast]
  | cons x xs ih =>
    cases xs with
    | nil => simp [incLast]
    | cons y ys => simpa [incLast] using ih

theorem incAt_pos (l : List Int) (n : Nat) (h : ∀ x ∈ l, 0 < x) :
    ∀ x ∈ incAt l n, 0 < x := by
  induction l generalizing n with
  | nil => simp [incAt]
  | cons x xs ih =>
    cases n with
    | zero =>
      intro y hy
      rcases List.mem_cons.mp hy with h1 | h2
      · have := h x (List.mem_cons_self x xs)
        omega
      · exact h y (List.mem_cons_of_mem x h2)
    | succ n =>
      intro y hy
      rcases List.mem_cons.mp hy with h1 | h2
      · exact h1 ▸ h x (List.mem_cons_self x xs)
      · exact ih n (fun z hz => h z (List.mem_cons_of_mem x hz)) y h2

theorem incLast_pos (l : List Int) (h : ∀ x ∈ l, 0 < x) :
    ∀ x ∈ incLast l, 0 < x := by
  induction l with
  | nil => simp [incLast]
  | cons x xs ih =>
    cases xs with
    | nil =>
      intro y hy
      rcases List.mem_cons.mp hy with h1 | h2
      · have := h x (List.mem_cons_self x [])
        omega
      · simp at h2
    | cons z zs =>
      intro y hy
      rcases List.mem_cons.mp hy with h1 | h2
      · exact h1 ▸ h x (List.mem_cons_self x (z :: zs))
      · exact ih (fun w hw => h w (List.mem_cons_of_mem x hw)) y h2

theorem replicate_getD_one (k j : Nat) (hj : j < k) :
    (List.replicate k (1 : Int)).getD j 0 = 1 := by
  induction k generalizing j with
  | zero => omega
  | succ k ih =>
    cases j with
    | zero => simp [List.replicate]
    | succ j => simpa [List.replicate] using ih j (by omega)

theorem filter_and_le {α : Type} (l : List α) (p q : α → Bool) :
    (l.filter fun x => p x && q x).length ≤ (l.filter p).length := by
  induction l with
  | nil => simp
  | cons x xs ih =>
    by_cases hp : p x
    · by_cases hq : q x
      · simp [List.filter_cons, hp, hq]
        omega
      · simp [List.filter_cons, hp, hq]
        omega
    · simp [List.filter_cons, hp]
      omega

theorem capTransform_tag (v : String) (c : Element) :
    (capTransform v c).tag = c.tag := by
  unfold capTransform
  rcases c with ⟨tag, attrib, children, text, tail⟩
  cases children with
  | nil => simp
  | cons first rest => by_cases h : first.tag = "p" <;> simp [h]

theorem filter_figcap_map (l : List Element) (f : Element → Element)
    (hf : ∀ c, (f c).tag = c.tag) :
    ((l.map f).filter fun c => c.tag == "figcaption").length
      = (l.filter fun c => c.tag == "figcaption").length := by
  induction l with
  | nil => simp
  | cons x xs ih =>
    by_cases h : x.tag == "figcaption"
    · simp only [List.map_cons, List.filter_cons, hf x, h, if_true]
      simpa using ih
    · simp only [List.map_cons, List.filter_cons, hf x, h, if_false]
      simpa using ih

theorem update_tag_children (el : Element) (ft fn tm : String) (pr : Bool) (h : tm ≠ "") :
    (update_tag el ft fn tm pr).children
      = el.children.map fun c =>
          if c.tag = "figcaption" then capTransform (pyFormat tm fn) c else c := by
  unfold update_tag
  by_cases hid : (attrGet el.attrib "id").isSome
  · cases pr <;> simp [hid, h, List.map_reverse]
  · cases pr <;> simp [hid, h, List.map_reverse]

theorem update_tag_children_no_template (el : Element) (ft fn : String) (pr : Bool) :
    (update_tag el ft fn "" pr).children = el.children := by
  unfold update_tag
  by_cases hid : (attrGet el.attrib "id").isSome <;> simp [hid]

theorem lstrip_all_ws_nil (s : List Char) (h : (lstrip s).all pyWs = true) :
    lstrip s = [] := by
  induction s with
  | nil => rfl
  | cons c rest ih =>
    by_cases hc : pyWs c
    · simp only [lstrip, List.dropWhile] at h ⊢
      rw [hc] at h ⊢
      exact ih h
    · simp only [lstrip, List.dropWhile] at h
      rw [Bool.of_not_eq_true hc] at h
      simp only [List.all_cons, Bool.and_eq_true] at h
      exact absurd h.1 hc

theorem vResidual_form (d : Bool) (arg0 : List Char) :
    vResidual d arg0 = arg0 ∨ ∃ s, vResidual d arg0 = lstrip s := by
  unfold vResidual vParse
  by_cases he : arg0.isEmpty
  · have h0 : arg0 = [] := by
      cases arg0 with
      | nil => rfl
      | cons c rest => simp [List.isEmpty] at he
    subst h0
    left; rfl
  · cases arg0 with
    | nil => simp [List.isEmpty] at he
    | cons c rest =>
      by_cases hgt : c = '>'
      · subst hgt
        cases hm : reFigNumMatch (lstrip rest) with
        | none =>
          right; refine ⟨rest, ?_⟩; simp [hm]
        | some r =>
          obtain ⟨caret, g2, endPos⟩ := r
          right; refine ⟨(lstrip rest).drop endPos, ?_⟩
          cases caret <;> simp [hm]
      · by_cases hlt : c = '<'
        · subst hlt
          cases hm : reFigNumMatch (lstrip rest) with
          | none =>
            right; refine ⟨rest, ?_⟩; simp [hgt, hm]
          | some r =>
            obtain ⟨caret, g2, endPos⟩ := r
            right; refine ⟨(lstrip rest).drop endPos, ?_⟩
            cases caret <;> simp [hgt, hm]
        · cases hm : reFigNumMatch (c :: rest) with
          | none =>
            left; simp [hgt, hlt, hm]
          | some r =>
            obtain ⟨caret, g2, endPos⟩ := r
            right; refine ⟨(c :: rest).drop endPos, ?_⟩
            cases caret <;> simp [hgt, hlt, hm]


/-! ### Claim theorems -/

/-- C3: the ancestor climb does not tolerate a hint-less `figure` ancestor:
on a tree where a binder figure sits inside a raw `figure` element with no
`__figure_type` attribute, the pass raises `KeyError` (line 142 indexes
`parent.attrib['__figure_type']` directly) instead of passing the ancestor
over.  The claim says the climb completes without raising for every input
tree; the code fails on this one. -/
theorem c3_raw_ancestor_keyerror :
    runNum cfgStd 100 docC3 = .error "KeyError: __figure_type" := rfl

/-- C4: the numeric-token validation does not behave as specified.  Because
the dot in `RE_FIG_NUM` is unescaped, the bare token `1x2` is accepted and
stored as a manual number (the claim requires dot separators only), and the
caret token `^1.2` is accepted as a level override (the claim requires a
single integer after the caret).  Both accepted values then crash the
Numberer pass, which parses them with `int(...)`: the code contradicts its
own downstream requirements. -/
theorem c4_validation_accepts_malformed_tokens :
    (on_validate false "1x2").accepted = true
    ∧ (on_validate false "1x2").fig_num = "1x2"
    ∧ parseFigNumAttr "1x2" = .error "ValueError: 1x2"
    ∧ runNum cfgStd 100 docC4 = .error "ValueError: 1x2"
    ∧ (on_validate false "^1.2").accepted = true
    ∧ (on_validate false "^1.2").level = "1.2"
    ∧ runNum cfgStd 100 docC4b = .error "ValueError: 1.2" :=
  ⟨rfl, rfl, rfl, rfl, rfl, rfl, rfl⟩

/-- C7: with the auto-level ceiling set to 1 and figures of the registered
type nested inside another of the same type, the pass succeeds (no error),
numbers the outer figure (`__figure_1`, prefix `Figure 1.`) and abandons the
whole nested subtree: neither the inner nor the innermost figure receives an
id, and their captions stay untouched. -/
theorem c7_auto_level_ceiling :
    runNum cfgL1 100 docC7 = .ok outC7
    ∧ attrGet outC7outer.attrib "id" = some "__figure_1"
    ∧ attrGet outC7inner.attrib "id" = none
    ∧ attrGet outC7grand.attrib "id" = none
    ∧ outC7grand.children = [fc0] :=
  ⟨rfl, rfl, rfl, rfl, rfl⟩

/-- C1 counterexample: a figure whose registered type has an empty prefix
template is skipped before the `__figure_num` handling, so after a full pass
the `__figure_num` transient attribute is still present — the claim that all
transient attributes are removed fails on this Binder-producible tree. -/
theorem c1_num_survives_on_skipped_type :
    runNum cfgE 100 docC1 = .ok outC1
    ∧ hasAttrB outC1fig "__figure_num" = true :=
  ⟨rfl, rfl⟩

/-- C5 counterexample: the first figure of a type carrying a level override
`2` is numbered from the initial counter `[0]`, whose top slot was never
incremented: the pass emits ordinal `0.1.1` (id `__figure_0_1_1`, prefix
`Figure 0.1.1.`) whose first component is not a positive integer. -/
theorem c5_zero_component_emitted :
    runNum cfgStd 100 docC5 = .ok outC5
    ∧ attrGet outC5fig.attrib "id" = some "__figure_0_1_1"
    ∧ allPosDotted "0.1.1" = false :=
  ⟨rfl, rfl, rfl⟩

/-- C9 counterexample: a whitespace-only argument reaches the final
`if argument:` test unchanged (no marker, no token, so nothing was stripped)
and is rejected, although no non-whitespace argument text remains — the
claimed "accept iff no non-whitespace text remains" fails at `" "`. -/
theorem c9_whitespace_only_rejected :
    (on_validate false " ").accepted = false
    ∧ (vResidual false " ".toList).all pyWs = true :=
  ⟨rfl, rfl⟩

/-- C10 counterexample: the `figcaption` loop of `update_tag` has no early
exit, so on a figure with two `figcaption` children the prefix span is
inserted into both captions — more than the "at most one" the claim states. -/
theorem c10_both_captions_prefixed :
    countPfxCaptions (update_tag elTwoCaps "figure" "1" "Figure \x7b\x7d." false) = 2
    ∧ ¬ countPfxCaptions (update_tag elTwoCaps "figure" "1" "Figure \x7b\x7d." false) ≤ 1 :=
  ⟨rfl, by decide⟩



/-- C2: manual-number adoption.  After the natural counter update, the
manual number is adopted exactly (the counter sequence becomes the manual
number) when it is component-wise at least the computed counter, and the
counter is unaffected by the manual value otherwise; in the concrete
scenario a figure with manual number `5` followed by an unmarked sibling
yields ids `__figure_5` and `__figure_6` with prefixes `Figure 5.` and
`Figure 6.`. -/
theorem c2_manual_number_adoption :
    (∀ counter m : List Int,
        m ≠ [] → ((counter.zip m).all fun p => p.1 ≤ p.2) = true →
        manualAdopt counter m = m)
    ∧ (∀ counter m : List Int,
        ((counter.zip m).all fun p => p.1 ≤ p.2) = false →
        manualAdopt counter m = counter)
    ∧ runNum cfgStd 100 docC2 = .ok outC2 := by
  refine ⟨?_, ?_, rfl⟩
  · intro counter m hne hall
    simp [manualAdopt, hne, hall]
  · intro counter m hall
    simp [manualAdopt, hall]

/-- C2 witness: the adoption equations evaluated at concrete counters. -/
theorem c2_manual_number_adoption_witness :
    manualAdopt [1] [5] = [5] ∧ manualAdopt [7] [5] = [7] :=
  ⟨c2_manual_number_adoption.1 [1] [5] (by decide) (by decide),
   c2_manual_number_adoption.2.1 [7] [5] (by decide)⟩

/-- C5 amended: whenever the counter update covers new slots (the depth
exceeds the last visited depth), every newly covered slot holds `1`; and
positivity of all components is preserved by the counter update and by the
adoption of a positive manual number.  (The initial counter `[0]` is outside
the second clause, which is what makes the original claim fail for a first
figure carrying a level override.) -/
theorem c5_new_slots_one_and_positivity :
    (∀ (counter : List Int) (l stack : Int) (i : Nat),
        counter.length ≤ i → i < (counterStep counter l stack).length →
        (counterStep counter l stack).getD i 0 = 1)
    ∧ (∀ (counter m : List Int) (l stack : Int),
        (∀ x ∈ counter, 0 < x) → (∀ x ∈ m, 0 < x) →
        ∀ x ∈ manualAdopt (counterStep counter l stack) m, 0 < x) := by
  constructor
  · intro counter l stack i hi hlt
    unfold counterStep at hlt ⊢
    by_cases h1 : stack > l
    · rw [if_pos h1] at hlt ⊢
      rw [List.getD_append_right _ _ _ _ hi]
      have hrep : i - counter.length < (stack - l).toNat := by
        simp [List.length_append, List.length_replicate] at hlt
        omega
      exact replicate_getD_one _ _ hrep
    · by_cases h2 : stack = l
      · rw [if_neg h1, if_pos h2, incAt_length] at hlt
        exfalso
        omega
      · rw [if_neg h1, if_neg h2, incLast_length, List.length_take] at hlt
        exfalso
        omega
  · intro counter m l stack hc hm x hx
    unfold manualAdopt at hx
    by_cases hcond : m ≠ [] ∧ (((counterStep counter l stack).zip m).all fun p => p.1 ≤ p.2) = true
    · rw [if_pos hcond] at hx
      exact hm x hx
    · rw [if_neg hcond] at hx
      unfold counterStep at hx
      by_cases h1 : stack > l
      · rw [if_pos h1] at hx
        rcases List.mem_append.mp hx with h | h
        · exact hc x h
        · have := List.eq_of_mem_replicate h
          omega
      · by_cases h2 : stack = l
        · rw [if_neg h1, if_pos h2] at hx
          exact incAt_pos counter stack.toNat hc x hx
        · rw [if_neg h1, if_neg h2] at hx
          exact incLast_pos _ (fun y hy => hc y (List.mem_of_mem_take hy)) x hx

/-- C5 amended witness: the properties evaluated at concrete counters. -/
theorem c5_new_slots_one_and_positivity_witness :
    (counterStep [1] 0 2).getD 1 0 = 1 ∧ (0 : Int) < 5 :=
  ⟨c5_new_slots_one_and_positivity.1 [1] 0 2 1 (by decide) (by decide),
   c5_new_slots_one_and_positivity.2 [1] [5] 0 0 (by decide) (by decide) 5 (by decide)⟩

/-- C8: two top-level figures receive ordinals `1` and `2` with ids
`__figure_1` and `__figure_2`; in general `update_tag` synthesizes
`__{type}_` followed by the dot components joined with underscores exactly
when no `id` attribute exists, and leaves a pre-existing `id` unchanged. -/
theorem c8_sequential_ids :
    runNum cfgStd 100 docC8 = .ok outC8
    ∧ (∀ (el : Element) (ft fn tm : String) (pr : Bool),
        (attrGet el.attrib "id").isSome = true →
        attrGet (update_tag el ft fn tm pr).attrib "id" = attrGet el.attrib "id")
    ∧ (∀ (el : Element) (ft fn tm : String) (pr : Bool),
        attrGet el.attrib "id" = none →
        attrGet (update_tag el ft fn tm pr).attrib "id"
          = some ("__" ++ ft ++ "_" ++ joinSep "_" (splitDots fn))) := by
  refine ⟨rfl, ?_, ?_⟩
  · intro el ft fn tm pr h
    unfold update_tag
    by_cases ht : tm = "" <;> simp [h, ht]
  · intro el ft fn tm pr h
    unfold update_tag
    have h' : (attrGet el.attrib "id").isSome = false := by simp [h]
    by_cases ht : tm = "" <;> simp [h', ht, attrGet_set_self]

/-- C8 witness: the id equations evaluated on concrete figures. -/
theorem c8_sequential_ids_witness :
    attrGet (update_tag ⟨"figure", [("id", "keep")], [], none, none⟩
        "figure" "3" "" false).attrib "id"
      = attrGet [("id", "keep")] "id"
    ∧ attrGet (update_tag ⟨"figure", [], [], none, none⟩
        "figure" "2.1" "" false).attrib "id"
      = some ("__" ++ "figure" ++ "_" ++ joinSep "_" (splitDots "2.1")) :=
  ⟨c8_sequential_ids.2.1 ⟨"figure", [("id", "keep")], [], none, none⟩ "figure" "3" "" false rfl,
   c8_sequential_ids.2.2 ⟨"figure", [], [], none, none⟩ "figure" "2.1" "" false rfl⟩

/-- C6: `on_create` reuses the parent's last child exactly when it is a
`figure` with no `figcaption` child; otherwise it creates a fresh figure in
last position and, when a last child existed, moves that child inside the
fresh figure — in particular a preceding figure that already contains a
caption is wrapped, never an error. -/
theorem c6_reuse_or_wrap (a : CreateArgs) (parent : Element) :
    (parent.children = [] →
      on_create a parent
        = { parent with children := [stampFig a ⟨"figure", [], [], none, none⟩] })
    ∧ (∀ init c, parent.children = init ++ [c] →
        c.tag = "figure" → (c.children.all fun x => x.tag != "figcaption") = true →
        on_create a parent = { parent with children := init ++ [stampFig a c] })
    ∧ (∀ init c, parent.children = init ++ [c] →
        (c.tag ≠ "figure" ∨ (c.children.all fun x => x.tag != "figcaption") = false) →
        on_create a parent
          = { parent with children :=
                init ++ [stampFig a ⟨"figure", [], [c], none, none⟩] }) := by
  refine ⟨?_, ?_, ?_⟩
  · intro h
    simp [on_create, h]
  · intro init c h htag hcap
    simp [on_create, h, List.getLast?_concat, List.dropLast_concat, htag, hcap]
  · intro init c h hdisj
    have hcond : ¬(c.tag = "figure" ∧ (c.children.all fun x => x.tag != "figcaption") = true) := by
      rcases hdisj with h1 | h2
      · exact fun hc => h1 hc.1
      · intro hc
        rw [h2] at hc
        exact Bool.false_ne_true hc.2
    simp only [on_create, h, List.getLast?_concat, List.dropLast_concat]
    rw [if_neg hcond]

/-- C6 witness: a preceding paragraph is wrapped into a fresh figure. -/
theorem c6_reuse_or_wrap_witness :
    on_create ⟨true, false, "figure", "", ""⟩
        ⟨"div", [], [⟨"p", [], [], some "x", none⟩], none, none⟩
      = { (⟨"div", [], [⟨"p", [], [], some "x", none⟩], none, none⟩ : Element) with
          children := [] ++ [stampFig ⟨true, false, "figure", "", ""⟩
            ⟨"figure", [], [⟨"p", [], [], some "x", none⟩], none, none⟩] } :=
  (c6_reuse_or_wrap ⟨true, false, "figure", "", ""⟩
      ⟨"div", [], [⟨"p", [], [], some "x", none⟩], none, none⟩).2.2
    [] ⟨"p", [], [], some "x", none⟩ rfl (Or.inl (by decide))

/-- C9 amended: on any argument that is empty or contains a non-whitespace
character (every argument except the whitespace-only ones, which the code
rejects), validation accepts exactly when, after stripping at most one
direction marker and at most one numeric token (as the implementation's
pattern recognizes it), no non-whitespace argument text remains; and
`on_validate` never touches the parent tree, so a rejection leaves the tree
unchanged. -/
theorem c9_accept_iff_no_residual (d : Bool) (arg : String)
    (h : arg.toList = [] ∨ (arg.toList.any fun c => !(pyWs c)) = true) :
    ((on_validate d arg).accepted = true ↔ (vResidual d arg.toList).all pyWs = true)
    ∧ (∀ parent : Element, on_validate_parent d arg parent = (on_validate d arg, parent)) := by
  refine ⟨?_, fun parent => rfl⟩
  have hacc : (on_validate d arg).accepted = (vResidual d arg.toList).isEmpty := rfl
  constructor
  · intro ha
    rw [hacc] at ha
    have hnil : vResidual d arg.toList = [] := by
      cases hv : vResidual d arg.toList with
      | nil => rfl
      | cons x xs => rw [hv] at ha; simp [List.isEmpty] at ha
    rw [hnil]
    rfl
  · intro hall
    rw [hacc]
    rcases vResidual_form d arg.toList with hf | ⟨s, hf⟩
    · rcases h with h0 | hany
      · rw [hf, h0]; rfl
      · rw [hf] at hall
        obtain ⟨c, hc, hneg⟩ := List.any_eq_true.mp hany
        have := List.all_eq_true.mp hall c hc
        rw [this] at hneg
        simp at hneg
    · rw [hf] at hall ⊢
      rw [lstrip_all_ws_nil s hall]
      rfl

/-- C9 amended witness: the equivalence applied at the argument `"5 extra"`
(which has non-whitespace text left after the token and is rejected). -/
theorem c9_accept_iff_no_residual_witness :
    ((on_validate false "5 extra").accepted = true
      ↔ (vResidual false "5 extra".toList).all pyWs = true)
    ∧ (∀ parent : Element,
        on_validate_parent false "5 extra" parent = (on_validate false "5 extra", parent)) :=
  c9_accept_iff_no_residual false "5 extra" (Or.inr (by decide))

/-- C10 amended: `update_tag` never adds or removes children of the figure,
and on a figure with at most one `figcaption` child (every figure the binder
builds) at most one caption carries the injected prefix afterwards; with two
captions present the loop, which has no early exit, marks both
(`c10_both_captions_prefixed`). -/
theorem c10_at_most_one_prefix (el : Element) (ft fn tm : String) (pr : Bool)
    (h : countFigcaps el ≤ 1) :
    countPfxCaptions (update_tag el ft fn tm pr) ≤ 1
    ∧ (update_tag el ft fn tm pr).children.length = el.children.length := by
  have htag : ∀ c : Element,
      ((fun c => if c.tag = "figcaption" then capTransform (pyFormat tm fn) c else c) c).tag
        = c.tag := by
    intro c
    by_cases hc : c.tag = "figcaption"
    · simp [hc, capTransform_tag]
    · simp [hc]
  by_cases ht : tm = ""
  · subst ht
    constructor
    · calc countPfxCaptions (update_tag el ft fn "" pr)
          ≤ countFigcaps (update_tag el ft fn "" pr) := by
            unfold countPfxCaptions countFigcaps
            exact filter_and_le _ _ _
        _ = countFigcaps el := by
            unfold countFigcaps
            rw [update_tag_children_no_template]
        _ ≤ 1 := h
    · rw [update_tag_children_no_template]
  · constructor
    · calc countPfxCaptions (update_tag el ft fn tm pr)
          ≤ countFigcaps (update_tag el ft fn tm pr) := by
            unfold countPfxCaptions countFigcaps
            exact filter_and_le _ _ _
        _ = countFigcaps el := by
            unfold countFigcaps
            rw [update_tag_children el ft fn tm pr ht]
            exact filter_figcap_map _ _ htag
        _ ≤ 1 := h
    · rw [update_tag_children el ft fn tm pr ht, List.length_map]

/-- C10 amended witness: a single-caption figure keeps a single prefixed
caption. -/
theorem c10_at_most_one_prefix_witness :
    countPfxCaptions (update_tag ⟨"figure", [], [fc0], none, none⟩
        "figure" "1" "Figure \x7b\x7d." false) ≤ 1
    ∧ (update_tag ⟨"figure", [], [fc0], none, none⟩
        "figure" "1" "Figure \x7b\x7d." false).children.length
      = (⟨"figure", [], [fc0], none, none⟩ : Element).children.length :=
  c10_at_most_one_prefix ⟨"figure", [], [fc0], none, none⟩
    "figure" "1" "Figure \x7b\x7d." false (by decide)



/-! ### Lemmas for the cleanup claim (C1) -/

theorem AllE_self {P : Element → Prop} {e : Element} (h : AllE P e) : P e := by
  cases h with
  | node _ hp _ => exact hp

theorem AllE_children {P : Element → Prop} {e : Element} (h : AllE P e) :
    ∀ c ∈ e.children, AllE P c := by
  cases h with
  | node _ _ hc => exact hc

theorem AllE_mono {P Q : Element → Prop} (hpq : ∀ x, P x → Q x) {e : Element}
    (h : AllE P e) : AllE Q e := by
  induction h with
  | node e hp _ ih => exact AllE.node e (hpq e hp) ih

theorem update_tag_tag (el : Element) (ft fn tm : String) (pr : Bool) :
    (update_tag el ft fn tm pr).tag = el.tag := by
  unfold update_tag
  by_cases hid : (attrGet el.attrib "id").isSome <;> by_cases ht : tm = "" <;>
    simp [hid, ht]

theorem update_tag_attrGet_ne (el : Element) (ft fn tm : String) (pr : Bool)
    (k : String) (hk : k ≠ "id") :
    attrGet (update_tag el ft fn tm pr).attrib k = attrGet el.attrib k := by
  unfold update_tag
  by_cases hid : (attrGet el.attrib "id").isSome <;> by_cases ht : tm = "" <;>
    simp [hid, ht, attrGet_set_ne _ _ _ _ hk]

theorem applyTag_tag (el1 : Element) (targs : Option TagArgs) :
    (applyTag el1 targs).tag = el1.tag := by
  cases targs with
  | none => rfl
  | some t => exact update_tag_tag el1 t.figType t.figNum t.template t.prepend

theorem applyTag_attrGet_ne (el1 : Element) (targs : Option TagArgs) (k : String)
    (hk : k ≠ "id") :
    attrGet (applyTag el1 targs).attrib k = attrGet el1.attrib k := by
  cases targs with
  | none => rfl
  | some t => exact update_tag_attrGet_ne el1 t.figType t.figNum t.template t.prepend k hk

theorem AllE_capTransform (P : Element → Prop) (v : String) (c : Element)
    (hstable : ∀ (e : Element) (ch : List Element) (tx : Option String),
      P e → P ⟨e.tag, e.attrib, ch, tx, e.tail⟩)
    (hspan : ∀ tx tl, P ⟨"span", [("class", "caption-prefix")], [], tx, tl⟩)
    (hp : ∀ ch tx tl, P ⟨"p", [], ch, tx, tl⟩)
    (h : AllE P c) : AllE P (capTransform v c) := by
  have hself : P c := AllE_self h
  have hch := AllE_children h
  obtain ⟨tag, attrib, children, text, tail⟩ := c
  unfold capTransform
  cases children with
  | nil =>
    refine AllE.node _ (hstable ⟨tag, attrib, [], text, tail⟩ _ _ hself) ?_
    intro x hx
    simp only [List.mem_singleton] at hx
    subst hx
    refine AllE.node _ (hp _ _ _) ?_
    intro y hy
    simp only [List.mem_singleton] at hy
    subst hy
    refine AllE.node _ (hspan _ _) ?_
    intro z hz
    simp at hz
  | cons first rest =>
    by_cases hfp : first.tag = "p"
    · simp only [hfp, if_true]
      refine AllE.node _ (hstable ⟨tag, attrib, first :: rest, text, tail⟩ _ _ hself) ?_
      intro x hx
      rcases List.mem_cons.mp hx with hx1 | hx2
      · subst hx1
        have hfirst : AllE P first := hch first (List.mem_cons_self _ _)
        refine AllE.node _ ?_ ?_
        · rw [← hfp]
          exact hstable first _ none (AllE_self hfirst)
        · intro y hy
          rcases List.mem_cons.mp hy with hy1 | hy2
          · subst hy1
            refine AllE.node _ (hspan _ _) ?_
            intro z hz
            simp at hz
          · exact AllE_children hfirst y hy2
      · exact hch x (List.mem_cons_of_mem _ hx2)
    · simp only [hfp, if_false]
      refine AllE.node _ (hstable ⟨tag, attrib, first :: rest, text, tail⟩ _ _ hself) ?_
      intro x hx
      rcases List.mem_cons.mp hx with hx1 | hx2
      · subst hx1
        refine AllE.node _ (hp _ _ _) ?_
        intro y hy
        simp only [List.mem_singleton] at hy
        subst hy
        refine AllE.node _ (hspan _ _) ?_
        intro z hz
        simp at hz
      · exact hch x hx2



theorem applyTag_children_AllE (P : Element → Prop) (el1 : Element)
    (targs : Option TagArgs)
    (hstable : ∀ (e : Element) (ch : List Element) (tx : Option String),
      P e → P ⟨e.tag, e.attrib, ch, tx, e.tail⟩)
    (hspan : ∀ tx tl, P ⟨"span", [("class", "caption-prefix")], [], tx, tl⟩)
    (hp : ∀ ch tx tl, P ⟨"p", [], ch, tx, tl⟩)
    (h : ∀ c ∈ el1.children, AllE P c) :
    ∀ c ∈ (applyTag el1 targs).children, AllE P c := by
  cases targs with
  | none => exact h
  | some t =>
    intro c hc
    simp only [applyTag] at hc
    by_cases ht : t.template = ""
    · rw [ht, update_tag_children_no_template] at hc
      exact h c hc
    · rw [update_tag_children _ _ _ _ _ ht] at hc
      obtain ⟨c0, hc0, rfl⟩ := List.mem_map.mp hc
      by_cases hcap : c0.tag = "figcaption"
      · rw [if_pos hcap]
        exact AllE_capTransform P _ c0 hstable hspan hp (h c0 hc0)
      · rw [if_neg hcap]
        exact h c0 hc0

theorem finishFig_spec (cfg : Cfg) (st : St) (el : Element) (ft : String)
    (stack : Int) (figNumL : List Int) (pr : Bool) (el1 : Element) (st1 : St)
    (targs : Option TagArgs)
    (h : finishFig cfg st el ft stack figNumL pr = .ok (el1, st1, targs)) :
    el1 = el := by
  unfold finishFig at h
  split at h
  · cases hd : dictGet st.last ft with
    | error e => rw [hd] at h; simp at h
    | ok l =>
      rw [hd] at h
      cases hd' : dictGet st.counters ft with
      | error e => rw [hd'] at h; simp at h
      | ok counter =>
        rw [hd'] at h
        simp only [Except.ok.injEq, Prod.mk.injEq] at h
        exact h.1.symm
  · simp only [Except.ok.injEq, Prod.mk.injEq] at h
    exact h.1.symm

theorem climbFinish_spec (cfg : Cfg) (st : St) (el : Element)
    (a1 : List (String × String)) (ft : String) (anc : List Element) (s0 : Int)
    (pr : Bool) (el1 : Element) (st1 : St) (targs : Option TagArgs)
    (h : climbFinish cfg st el a1 ft anc s0 pr = .ok (el1, st1, targs)) :
    el1 = { el with attrib := a1 }
    ∨ ∃ v, el1 = { el with attrib := attrSet a1 "__figure_level" v } := by
  unfold climbFinish at h
  cases hcl : climb cfg.auto_level ft anc s0 with
  | error e => rw [hcl] at h; simp at h
  | ok r =>
    obtain ⟨stack, skip, setLv⟩ := r
    rw [hcl] at h
    simp only at h
    cases setLv with
    | none =>
      by_cases hs : skip
      · rw [if_pos (by simp [hs])] at h
        simp only [Except.ok.injEq, Prod.mk.injEq] at h
        exact Or.inl h.1.symm
      · rw [if_neg (by simp [hs])] at h
        exact Or.inl (finishFig_spec _ _ _ _ _ _ _ _ _ _ h)
    | some v =>
      by_cases hs : skip
      · rw [if_pos (by simp [hs])] at h
        simp only [Except.ok.injEq, Prod.mk.injEq] at h
        exact Or.inr ⟨v, h.1.symm⟩
      · rw [if_neg (by simp [hs])] at h
        exact Or.inr ⟨v, finishFig_spec _ _ _ _ _ _ _ _ _ _ h⟩



theorem processEl_exit_spec (el : Element) (a1 A : List (String × String))
    (hA1prep : attrGet a1 "__figure_prepend" = none)
    (hA1type : attrGet a1 "__figure_type" = attrGet el.attrib "__figure_type")
    (hA1level : attrGet a1 "__figure_level" = attrGet el.attrib "__figure_level")
    (hA : A = a1
      ∨ (∃ v, A = attrSet a1 "__figure_level" v
          ∧ (attrGet a1 "__figure_type").isSome = true)
      ∨ (∃ v, A = attrSet (attrDel a1 "__figure_num") "__figure_level" v
          ∧ (attrGet a1 "__figure_type").isSome = true)) :
    (Element.mk el.tag A el.children el.text el.tail).tag = el.tag
    ∧ (Element.mk el.tag A el.children el.text el.tail).children = el.children
    ∧ (el.tag = "figure" →
        hasAttrB (Element.mk el.tag A el.children el.text el.tail) "__figure_prepend" = false)
    ∧ hasAttrB (Element.mk el.tag A el.children el.text el.tail) "__figure_type"
        = hasAttrB el "__figure_type"
    ∧ (hasAttrB (Element.mk el.tag A el.children el.text el.tail) "__figure_level" = true →
        hasAttrB (Element.mk el.tag A el.children el.text el.tail) "__figure_type" = true
        ∨ hasAttrB el "__figure_level" = true) := by
  have hAprep : attrGet A "__figure_prepend" = none := by
    rcases hA with rfl | ⟨v, rfl, _⟩ | ⟨v, rfl, _⟩
    · exact hA1prep
    · rw [attrGet_set_ne _ _ _ _ (by decide)]
      exact hA1prep
    · rw [attrGet_set_ne _ _ _ _ (by decide), attrGet_del_ne _ _ _ (by decide)]
      exact hA1prep
  have hAtype : attrGet A "__figure_type" = attrGet el.attrib "__figure_type" := by
    rcases hA with rfl | ⟨v, rfl, _⟩ | ⟨v, rfl, _⟩
    · exact hA1type
    · rw [attrGet_set_ne _ _ _ _ (by decide)]
      exact hA1type
    · rw [attrGet_set_ne _ _ _ _ (by decide), attrGet_del_ne _ _ _ (by decide)]
      exact hA1type
  refine ⟨rfl, rfl, ?_, ?_, ?_⟩
  · intro _
    simp [hasAttrB, hAprep]
  · simp [hasAttrB, hAtype]
  · intro hlv
    rcases hA with rfl | ⟨v, hAeq, hsome⟩ | ⟨v, hAeq, hsome⟩
    · right
      simp only [hasAttrB] at hlv ⊢
      rw [← hA1level]
      exact hlv
    · left
      simp only [hasAttrB, hAtype]
      rw [← hA1type]
      exact hsome
    · left
      simp only [hasAttrB, hAtype]
      rw [← hA1type]
      exact hsome

theorem isSome_false_eq_none {o : Option String} (h : o.isSome = false) : o = none := by
  cases o with
  | none => rfl
  | some v => simp at h

theorem processEl_spec (cfg : Cfg) (anc : List Element) (st : St) (el el1 : Element)
    (st1 : St) (targs : Option TagArgs)
    (h : processEl cfg anc st el = .ok (el1, st1, targs)) :
    el1.tag = el.tag ∧ el1.children = el.children ∧
    (el.tag = "figure" → hasAttrB el1 "__figure_prepend" = false) ∧
    hasAttrB el1 "__figure_type" = hasAttrB el "__figure_type" ∧
    (hasAttrB el1 "__figure_level" = true →
      hasAttrB el1 "__figure_type" = true ∨ hasAttrB el "__figure_level" = true) := by
  unfold processEl at h
  by_cases hft : el.tag = "figure"
  · rw [if_pos hft] at h
    simp only at h
    set a1 := if hasAttrB el "__figure_prepend" = true
        then attrDel el.attrib "__figure_prepend" else el.attrib with ha1
    have hA1prep : attrGet a1 "__figure_prepend" = none := by
      rw [ha1]
      by_cases hp : hasAttrB el "__figure_prepend" = true
      · rw [if_pos hp]
        exact attrGet_del_self _ _
      · rw [if_neg hp]
        exact isSome_false_eq_none (Bool.of_not_eq_true hp)
    have hA1type : attrGet a1 "__figure_type" = attrGet el.attrib "__figure_type" := by
      rw [ha1]
      by_cases hp : hasAttrB el "__figure_prepend" = true
      · rw [if_pos hp]
        exact attrGet_del_ne _ _ _ (by decide)
      · rw [if_neg hp]
    have hA1level : attrGet a1 "__figure_level" = attrGet el.attrib "__figure_level" := by
      rw [ha1]
      by_cases hp : hasAttrB el "__figure_prepend" = true
      · rw [if_pos hp]
        exact attrGet_del_ne _ _ _ (by decide)
      · rw [if_neg hp]
    cases hty : attrGet a1 "__figure_type" with
    | none =>
      rw [hty] at h
      simp only [Except.ok.injEq, Prod.mk.injEq] at h
      rw [← h.1]
      exact processEl_exit_spec el a1 a1 hA1prep hA1type hA1level (Or.inl rfl)
    | some ft =>
      rw [hty] at h
      simp only at h
      cases hfind : cfg.fig_types.find? (fun p => p.1 == ft) with
      | none =>
        rw [hfind] at h
        simp only [Except.ok.injEq, Prod.mk.injEq] at h
        rw [← h.1]
        exact processEl_exit_spec el a1 a1 hA1prep hA1type hA1level (Or.inl rfl)
      | some pr' =>
        obtain ⟨nm, tmpl⟩ := pr'
        rw [hfind] at h
        simp only at h
        by_cases htm : tmpl = ""
        · rw [if_pos htm] at h
          simp only [Except.ok.injEq, Prod.mk.injEq] at h
          rw [← h.1]
          exact processEl_exit_spec el a1 a1 hA1prep hA1type hA1level (Or.inl rfl)
        · rw [if_neg htm] at h
          cases hnum : attrGet a1 "__figure_num" with
          | some ns =>
            rw [hnum] at h
            simp only at h
            cases hparse : parseFigNumAttr ns with
            | error e =>
              rw [hparse] at h
              simp at h
            | ok figNumL =>
              rw [hparse] at h
              simp only at h
              have := finishFig_spec _ _ _ _ _ _ _ _ _ _ h
              rw [this]
              exact processEl_exit_spec el a1 _ hA1prep hA1type hA1level
                (Or.inr (Or.inr ⟨toString figNumL.length, rfl, by rw [hty]; rfl⟩))
          | none =>
            rw [hnum] at h
            simp only at h
            cases hlv : attrGet a1 "__figure_level" with
            | some lv =>
              rw [hlv] at h
              simp only at h
              cases hint : pyInt lv with
              | error e =>
                rw [hint] at h
                simp at h
              | ok v =>
                rw [hint] at h
                simp only at h
                by_cases hceil : cfg.auto_level ≠ 0 ∧ (-1 + v + 1 : Int) ≥ (cfg.auto_level : Int) - 1
                · rw [if_pos hceil] at h
                  simp only [Except.ok.injEq, Prod.mk.injEq] at h
                  rw [← h.1]
                  exact processEl_exit_spec el a1 a1 hA1prep hA1type hA1level (Or.inl rfl)
                · rw [if_neg hceil] at h
                  rcases climbFinish_spec _ _ _ _ _ _ _ _ _ _ _ h with h1 | ⟨w, h1⟩
                  · rw [h1]
                    exact processEl_exit_spec el a1 a1 hA1prep hA1type hA1level (Or.inl rfl)
                  · rw [h1]
                    exact processEl_exit_spec el a1 _ hA1prep hA1type hA1level
                      (Or.inr (Or.inl ⟨w, rfl, by rw [hty]; rfl⟩))
            | none =>
              rw [hlv] at h
              simp only at h
              rcases climbFinish_spec _ _ _ _ _ _ _ _ _ _ _ h with h1 | ⟨w, h1⟩
              · rw [h1]
                exact processEl_exit_spec el a1 a1 hA1prep hA1type hA1level (Or.inl rfl)
              · rw [h1]
                exact processEl_exit_spec el a1 _ hA1prep hA1type hA1level
                  (Or.inr (Or.inl ⟨w, rfl, by rw [hty]; rfl⟩))
  · rw [if_neg hft] at h
    simp only [Except.ok.injEq, Prod.mk.injEq] at h
    rw [← h.1]
    exact ⟨rfl, rfl, fun hc => absurd hc hft, rfl, fun hl => Or.inr hl⟩

theorem processEl_clean (cfg : Cfg) (anc : List Element) (st : St) (el : Element)
    (hcl : Clean el) : processEl cfg anc st el = .ok (el, st, none) := by
  unfold processEl
  by_cases hft : el.tag = "figure"
  · rw [if_pos hft]
    obtain ⟨hty, hpr⟩ := hcl hft
    have htyn : attrGet el.attrib "__figure_type" = none := isSome_false_eq_none hty
    simp only [hpr, Bool.false_eq_true, if_false, htyn]
    obtain ⟨t, a, c, tx, tl⟩ := el
    rfl
  · rw [if_neg hft]


theorem runList_shape (cfg : Cfg) :
    ∀ (fuel : Nat) (anc : List Element) (st : St) (els out : List Element) (st' : St),
      runList cfg fuel anc st els = .ok (out, st') →
      (∀ e ∈ els, AllE LvTy e) →
      ∀ e ∈ out, AllE (fun n => LvTy n ∧ PrepClear n) e := by
  intro fuel
  induction fuel with
  | zero =>
    intro anc st els out st' h hin
    cases els with
    | nil =>
      simp only [runList, Except.ok.injEq, Prod.mk.injEq] at h
      rw [← h.1]
      intro e he
      simp at he
    | cons el rest => simp [runList] at h
  | succ fuel ih =>
    intro anc st els out st' h hin
    cases els with
    | nil =>
      simp only [runList, Except.ok.injEq, Prod.mk.injEq] at h
      rw [← h.1]
      intro e he
      simp at he
    | cons el rest =>
      simp only [runList] at h
      cases hpe : processEl cfg anc st el with
      | error e =>
        rw [hpe] at h
        simp at h
      | ok r =>
        obtain ⟨el1, st1, targs⟩ := r
        rw [hpe] at h
        simp only at h
        cases hc : runList cfg fuel (applyTag el1 targs :: anc) st1
            (applyTag el1 targs).children with
        | error e =>
          rw [hc] at h
          simp at h
        | ok rc =>
          obtain ⟨cs, st2⟩ := rc
          rw [hc] at h
          simp only at h
          cases hr : runList cfg fuel anc st2 rest with
          | error e =>
            rw [hr] at h
            simp at h
          | ok rr =>
            obtain ⟨rs, st3⟩ := rr
            rw [hr] at h
            simp only [Except.ok.injEq, Prod.mk.injEq] at h
            obtain ⟨hout, hst⟩ := h
            rw [← hout]
            have hhead := hin el (List.mem_cons_self _ _)
            obtain ⟨htag1, hch1, hprep1, htype1, hlevel1⟩ :=
              processEl_spec cfg anc st el el1 st1 targs hpe
            have hEtag : (applyTag el1 targs).tag = el1.tag := applyTag_tag el1 targs
            have hElv : hasAttrB (applyTag el1 targs) "__figure_level"
                = hasAttrB el1 "__figure_level" := by
              simp only [hasAttrB,
                applyTag_attrGet_ne el1 targs "__figure_level" (by decide)]
            have hEty : hasAttrB (applyTag el1 targs) "__figure_type"
                = hasAttrB el1 "__figure_type" := by
              simp only [hasAttrB,
                applyTag_attrGet_ne el1 targs "__figure_type" (by decide)]
            have hEpr : hasAttrB (applyTag el1 targs) "__figure_prepend"
                = hasAttrB el1 "__figure_prepend" := by
              simp only [hasAttrB,
                applyTag_attrGet_ne el1 targs "__figure_prepend" (by decide)]
            have hchAll : ∀ c ∈ (applyTag el1 targs).children, AllE LvTy c := by
              apply applyTag_children_AllE LvTy el1 targs
              · intro e ch tx hP
                simpa [LvTy, hasAttrB] using hP
              · intro tx tl
                simp [LvTy, hasAttrB, attrGet]
              · intro ch tx tl
                simp [LvTy, hasAttrB, attrGet]
              · rw [hch1]
                exact AllE_children hhead
            have hcsAll := ih _ _ _ _ _ hc hchAll
            have hrsAll := ih _ _ _ _ _ hr (fun e he => hin e (List.mem_cons_of_mem _ he))
            intro e he
            rcases List.mem_cons.mp he with he1 | he2
            · subst he1
              refine AllE.node _ ⟨?_, ?_⟩ ?_
              · intro hlv
                have hlv1 : hasAttrB el1 "__figure_level" = true := by
                  rw [← hElv]
                  exact hlv
                show hasAttrB (applyTag el1 targs) "__figure_type" = true
                rw [hEty]
                rcases hlevel1 hlv1 with hx | hx
                · exact hx
                · rw [htype1]
                  exact (AllE_self hhead) hx
              · intro hfig
                show hasAttrB (applyTag el1 targs) "__figure_prepend" = false
                rw [hEpr]
                apply hprep1
                rw [← htag1, ← hEtag]
                exact hfig
              · intro c hcmem
                exact hcsAll c hcmem
            · exact hrsAll e he2


theorem cleanupList_clears :
    ∀ (fuel : Nat) (els out : List Element),
      cleanupList fuel els = some out →
      (∀ e ∈ els, AllE (fun n => LvTy n ∧ PrepClear n) e) →
      ∀ e ∈ out, AllE TransClear e := by
  intro fuel
  induction fuel with
  | zero =>
    intro els out h hin
    cases els with
    | nil =>
      simp only [cleanupList, Option.some.injEq] at h
      rw [← h]
      intro e he
      simp at he
    | cons e es => simp [cleanupList] at h
  | succ fuel ih =>
    intro els out h hin
    cases els with
    | nil =>
      simp only [cleanupList, Option.some.injEq] at h
      rw [← h]
      intro e he
      simp at he
    | cons e es =>
      simp only [cleanupList] at h
      cases hc : cleanupList fuel e.children with
      | none => rw [hc] at h; simp at h
      | some cs =>
        rw [hc] at h
        simp only at h
        cases hs : cleanupList fuel es with
        | none => rw [hs] at h; simp at h
        | some es' =>
          rw [hs] at h
          simp only [Option.some.injEq] at h
          rw [← h]
          obtain ⟨hLv, hPrep⟩ := AllE_self (hin e (List.mem_cons_self _ _))
          have hcsAll := ih _ _ hc (AllE_children (hin e (List.mem_cons_self _ _)))
          have hesAll := ih _ _ hs (fun x hx => hin x (List.mem_cons_of_mem _ hx))
          intro x hx
          rcases List.mem_cons.mp hx with hx1 | hx2
          · subst hx1
            refine AllE.node _ ?_ (fun c hcm => hcsAll c hcm)
            intro hfig
            have hfig' : e.tag = "figure" := hfig
            by_cases hty : hasAttrB e "__figure_type" = true
            · rw [if_pos ⟨hfig', hty⟩]
              by_cases hlv : (attrGet (attrDel e.attrib "__figure_type") "__figure_level").isSome
              · rw [if_pos hlv]
                refine ⟨?_, ?_, ?_⟩
                · simp only [hasAttrB]
                  rw [attrGet_del_ne _ _ _ (by decide), attrGet_del_self]
                  rfl
                · simp only [hasAttrB]
                  rw [attrGet_del_ne _ _ _ (by decide), attrGet_del_ne _ _ _ (by decide)]
                  exact hPrep hfig'
                · simp only [hasAttrB]
                  rw [attrGet_del_self]
                  rfl
              · rw [if_neg hlv]
                refine ⟨?_, ?_, ?_⟩
                · simp only [hasAttrB]
                  rw [attrGet_del_self]
                  rfl
                · simp only [hasAttrB]
                  rw [attrGet_del_ne _ _ _ (by decide)]
                  exact hPrep hfig'
                · simp only [hasAttrB]
                  exact Bool.of_not_eq_true (by simpa using hlv)
            · rw [if_neg (fun hco => hty hco.2)]
              refine ⟨Bool.of_not_eq_true hty, hPrep hfig', ?_⟩
              by_cases hlv : hasAttrB e "__figure_level" = true
              · exact absurd (hLv hlv) hty
              · exact Bool.of_not_eq_true hlv
          · exact hesAll x hx2

theorem cleanupList_shape :
    ∀ (fuel : Nat) (els out : List Element),
      cleanupList fuel els = some out → ShapeEq els out := by
  intro fuel
  induction fuel with
  | zero =>
    intro els out h
    cases els with
    | nil =>
      simp only [cleanupList, Option.some.injEq] at h
      rw [← h]
      exact ShapeEq.nil
    | cons e es => simp [cleanupList] at h
  | succ fuel ih =>
    intro els out h
    cases els with
    | nil =>
      simp only [cleanupList, Option.some.injEq] at h
      rw [← h]
      exact ShapeEq.nil
    | cons e es =>
      simp only [cleanupList] at h
      cases hc : cleanupList fuel e.children with
      | none => rw [hc] at h; simp at h
      | some cs =>
        rw [hc] at h
        simp only at h
        cases hs : cleanupList fuel es with
        | none => rw [hs] at h; simp at h
        | some es' =>
          rw [hs] at h
          simp only [Option.some.injEq] at h
          rw [← h]
          exact ShapeEq.cons e _ es es' (ih _ _ hc) (ih _ _ hs)

theorem cleanupList_rerun :
    ∀ (fuel : Nat) (els out' : List Element),
      (∃ out, cleanupList fuel els = some out) →
      ShapeEq els out' →
      (∀ e ∈ out', AllE CleanT e) →
      cleanupList fuel out' = some out' := by
  intro fuel
  induction fuel with
  | zero =>
    intro els out' hex hsh hcl
    cases hsh with
    | nil => rfl
    | cons e e' es es' _ _ =>
      obtain ⟨out, hout⟩ := hex
      simp [cleanupList] at hout
  | succ fuel ih =>
    intro els out' hex hsh hcl
    cases hsh with
    | nil => rfl
    | cons e e' es es' hshc hshs =>
      obtain ⟨out, hout⟩ := hex
      simp only [cleanupList] at hout
      cases hc : cleanupList fuel e.children with
      | none => rw [hc] at hout; simp at hout
      | some cs =>
        rw [hc] at hout
        simp only at hout
        cases hs : cleanupList fuel es with
        | none => rw [hs] at hout; simp at hout
        | some es'' =>
          have hcl' : CleanT e' := AllE_self (hcl e' (List.mem_cons_self _ _))
          have hcond : ¬(e'.tag = "figure" ∧ hasAttrB e' "__figure_type" = true) := by
            intro hco
            rw [hcl' hco.1] at hco
            exact Bool.false_ne_true hco.2
          have hch := ih e.children e'.children ⟨cs, hc⟩ hshc
            (fun c hcm => AllE_children (hcl e' (List.mem_cons_self _ _)) c hcm)
          have hes := ih es es' ⟨es'', hs⟩ hshs
            (fun c hcm => hcl c (List.mem_cons_of_mem _ hcm))
          obtain ⟨t, a, c, tx, tl⟩ := e'
          simp only [cleanupList]
          rw [if_neg hcond]
          rw [hch, hes]



theorem runList_rerun (cfg : Cfg) :
    ∀ (fuel : Nat) (anc : List Element) (st : St) (els out : List Element) (st'' : St),
      runList cfg fuel anc st els = .ok (out, st'') →
      ∀ (out' : List Element), ShapeEq out out' →
      (∀ e ∈ out', AllE Clean e) →
      ∀ (anc' : List Element) (st0 : St),
        runList cfg fuel anc' st0 out' = .ok (out', st0) := by
  intro fuel
  induction fuel with
  | zero =>
    intro anc st els out st'' h out' hsh hcl anc' st0
    cases els with
    | nil =>
      simp only [runList, Except.ok.injEq, Prod.mk.injEq] at h
      rw [← h.1] at hsh
      cases hsh
      rfl
    | cons el rest => simp [runList] at h
  | succ fuel ih =>
    intro anc st els out st'' h out' hsh hcl anc' st0
    cases els with
    | nil =>
      simp only [runList, Except.ok.injEq, Prod.mk.injEq] at h
      rw [← h.1] at hsh
      cases hsh
      rfl
    | cons el rest =>
      simp only [runList] at h
      cases hpe : processEl cfg anc st el with
      | error e =>
        rw [hpe] at h
        simp at h
      | ok r =>
        obtain ⟨el1, st1, targs⟩ := r
        rw [hpe] at h
        simp only at h
        cases hc : runList cfg fuel (applyTag el1 targs :: anc) st1
            (applyTag el1 targs).children with
        | error e =>
          rw [hc] at h
          simp at h
        | ok rc =>
          obtain ⟨cs, st2⟩ := rc
          rw [hc] at h
          simp only at h
          cases hr : runList cfg fuel anc st2 rest with
          | error e =>
            rw [hr] at h
            simp at h
          | ok rr =>
            obtain ⟨rs, st3⟩ := rr
            rw [hr] at h
            simp only [Except.ok.injEq, Prod.mk.injEq] at h
            obtain ⟨hout, hst⟩ := h
            rw [← hout] at hsh
            cases hsh with
            | cons _ e' _ es' hshc hshs =>
              have hclhead := hcl e' (List.mem_cons_self _ _)
              have hch := ih _ _ _ _ _ hc e'.children hshc
                (fun c hcm => AllE_children hclhead c hcm) (e' :: anc') st0
              have hrs := ih _ _ _ _ _ hr es' hshs
                (fun c hcm => hcl c (List.mem_cons_of_mem _ hcm)) anc' st0
              have hpe' := processEl_clean cfg anc' st0 e' (AllE_self hclhead)
              obtain ⟨t, a, c, tx, tl⟩ := e'
              simp only [runList]
              rw [hpe']
              simp only [applyTag]
              rw [hch]
              simp only
              rw [hrs]


/-- C1 amended: over any tree in which a `__figure_level` hint only appears
together with `__figure_type` (true of every tree the Figure Binder builds),
one successful pass removes `__figure_type`, `__figure_prepend` and
`__figure_level` from every figure, and a second pass over the result
returns the tree unchanged (a no-op).  `__figure_num` is exempt: on a figure
whose type is skipped for lack of a template it survives the pass
(`c1_num_survives_on_skipped_type`), which is what the original claim
missed. -/
theorem c1_transients_cleared (cfg : Cfg) (fuel : Nat) (doc out : Element)
    (hshape : AllE LvTy doc) (hrun : runNum cfg fuel doc = .ok out) :
    AllE TransClear out ∧ runNum cfg fuel out = .ok out := by
  unfold runNum at hrun ⊢
  cases hr : runList cfg fuel [] (initSt cfg) [doc] with
  | error e => rw [hr] at hrun; simp at hrun
  | ok r =>
    obtain ⟨outL, stF⟩ := r
    rw [hr] at hrun
    simp only at hrun
    cases hcl : cleanupList fuel outL with
    | none => rw [hcl] at hrun; simp at hrun
    | some l =>
      rw [hcl] at hrun
      cases l with
      | nil => simp at hrun
      | cons d l2 =>
        cases l2 with
        | cons d2 l3 => simp at hrun
        | nil =>
          simp only [Except.ok.injEq] at hrun
          subst hrun
          have hmain := runList_shape cfg fuel [] (initSt cfg) [doc] outL stF hr
            (by
              intro e he
              simp only [List.mem_singleton] at he
              subst he
              exact hshape)
          have hTd : AllE TransClear d :=
            cleanupList_clears fuel outL [d] hcl hmain d (List.mem_singleton.mpr rfl)
          refine ⟨hTd, ?_⟩
          have hCleanD : AllE Clean d :=
            AllE_mono (fun x hx hf => ⟨(hx hf).1, (hx hf).2.1⟩) hTd
          have hsh : ShapeEq outL [d] := cleanupList_shape fuel outL [d] hcl
          have hrl := runList_rerun cfg fuel [] (initSt cfg) [doc] outL stF hr [d] hsh
            (by
              intro e he
              simp only [List.mem_singleton] at he
              subst he
              exact hCleanD) [] (initSt cfg)
          rw [hrl]
          simp only
          have hcl2 := cleanupList_rerun fuel outL [d] ⟨[d], hcl⟩ hsh
            (by
              intro e he
              simp only [List.mem_singleton] at he
              subst he
              exact AllE_mono (fun x hx hf => (hx hf).1) hTd)
          rw [hcl2]

/-- LvTy holds at any node with no `__figure_level` attribute. -/
theorem LvTy_of_no_level (n : Element) (h : hasAttrB n "__figure_level" = false) :
    LvTy n :=
  fun hl => absurd (h ▸ hl) Bool.false_ne_true

/-- C1 shape side condition for the witness document: every node of `docC8`
satisfies LvTy (no `__figure_level` hints at all). -/
theorem c1_docC8_shape : AllE LvTy docC8 := by
  refine AllE.node _ (LvTy_of_no_level _ (by decide)) ?_
  intro c hc
  simp only [docC8, List.mem_cons, List.not_mem_nil, or_false] at hc
  rcases hc with rfl | rfl
  all_goals
    refine AllE.node _ (LvTy_of_no_level _ (by decide)) ?_
    intro d hd
    simp only [List.mem_cons, List.not_mem_nil, or_false] at hd
    subst hd
    refine AllE.node _ (LvTy_of_no_level _ (by decide)) ?_
    intro z hz
    simp [fc0] at hz

/-- C1 amended witness: the cleanup guarantee instantiated on the two-figure
document. -/
theorem c1_transients_cleared_witness :
    AllE TransClear outC8 ∧ runNum cfgStd 100 outC8 = .ok outC8 :=
  c1_transients_cleared cfgStd 100 docC8 outC8 c1_docC8_shape rfl

end CaptionExt
